import Mathlib

/-!
Verification development for the pesca-parser front end: a shallow embedding
of the lexer (src/src/lexer.rs and src/src/lexer/mod.rs) and of the grammar
combinator engine (src/src/parser/combinators.rs) together with the
expression grammar rules (src/src/parser/ast/expression/mod.rs, id.rs),
plus theorems settling the frozen claims about them.

Rust's mutable token stream is embedded by explicit state passing: every
parsing operation takes a stream and returns the final stream next to its
result, so stream positions on failure remain observable.  Rust panics
(todo!, unreachable!) are embedded as a distinguished abort outcome that,
unlike an ordinary error value, is never absorbed by Either or Optional.
Recursion through the EXPR Node rule is made total with an explicit fuel
parameter; running out of fuel is also an abort, a model artifact that no
claim depends on.
-/

namespace Pesca

/-- Source position as line and column, from src/src/lexer.rs
(`type Position = (usize, usize)`). -/
abbrev Position := Nat × Nat

/-- Token type from src/src/lexer.rs, extended with the `Times` and `Plus`
variants that src/src/parser/ast/expression/mod.rs matches on (the file
lexer/token.rs defining the extended enum is absent from src).  The u64
literal payload is modelled as `Nat`; the lexer enforces the 64-bit bound
when converting a digit run. -/
inductive Token where
  | Eq (position : Position)
  | Let (position : Position)
  | Id (value : String) (position : Position)
  | Num (value : Nat) (position : Position)
  | Semicolon (position : Position)
  | Comment (value : String) (position : Position)
  | Times (position : Position)
  | Plus (position : Position)
deriving DecidableEq, Repr

/-- Embedding of `Token::position` from src/src/lexer.rs. -/
def Token.position : Token → Position
  | .Eq p => p
  | .Let p => p
  | .Id _ p => p
  | .Num _ p => p
  | .Semicolon p => p
  | .Comment _ p => p
  | .Times p => p
  | .Plus p => p

/-- Constructor name of a token, standing in for Rust's Debug formatting
inside error and panic messages (only the position field of an error is
ever claim-relevant). -/
def Token.describe : Token → String
  | .Eq _ => "Eq"
  | .Let _ => "Let"
  | .Id _ _ => "Id"
  | .Num _ _ => "Num"
  | .Semicolon _ => "Semicolon"
  | .Comment _ _ => "Comment"
  | .Times _ => "Times"
  | .Plus _ => "Plus"

/-- The `Terminal` enum from src/src/parser/combinators.rs. -/
inductive Terminal where
  | Eq
  | Let
  | Semicolon
deriving DecidableEq, Repr

/-- Embedding of `impl PartialEq<Token> for Terminal` from
src/src/parser/combinators.rs: a terminal matches exactly the token of the
same head, regardless of position. -/
def Terminal.matches : Terminal → Token → Bool
  | .Eq, Token.Eq _ => true
  | .Let, Token.Let _ => true
  | .Semicolon, Token.Semicolon _ => true
  | _, _ => false

/-- Constructor name of a terminal, standing in for Rust's Debug formatting
inside error messages. -/
def Terminal.describe : Terminal → String
  | .Eq => "Eq"
  | .Let => "Let"
  | .Semicolon => "Semicolon"

/-- Modelled from the spec: src/src/lexer/tokens.rs, which defines the
`Tokens` stream the combinators drive, is absent from src.  Per spec
section 4.2 the stream owns an immutable token sequence plus one integer
cursor, with peek / advance / get_index / set_index and nothing else. -/
structure Tokens where
  tokens : List Token
  index : Nat
deriving DecidableEq, Repr

/-- Modelled from the spec: `peek` reads the current token without
advancing, `None` at end (spec section 4.2). -/
def Tokens.peek (ts : Tokens) : Option Token :=
  ts.tokens.get? ts.index

/-- Modelled from the spec: `advance`/`next` returns the current token and
increments the cursor, and is a no-op returning `None` at end (spec
section 4.2); the state-passing embedding returns the updated stream. -/
def Tokens.next (ts : Tokens) : Option Token × Tokens :=
  match ts.tokens.get? ts.index with
  | some t => (some t, { ts with index := ts.index + 1 })
  | none => (none, ts)

/-- Modelled from the spec: `get_index` exposes the cursor (spec
section 4.2). -/
def Tokens.get_index (ts : Tokens) : Nat :=
  ts.index

/-- Modelled from the spec: `set_index` unconditionally overwrites the
cursor (spec section 4.2). -/
def Tokens.set_index (ts : Tokens) (i : Nat) : Tokens :=
  { ts with index := i }

/-- The `ParseError` carried by parser results: a message plus the
offending token's position when one was recorded (the struct itself is
declared in the absent parser/mod.rs, but every field and construction
site appears in combinators.rs and id.rs). -/
structure ParseError where
  message : String
  position : Option Position
deriving DecidableEq, Repr

/-- Modelled from the spec: `ParseError::eof`, used by id.rs, is declared
in the absent parser/mod.rs; per spec section 7 EOF errors carry no
position. -/
def ParseError.eof (rule : String) : ParseError :=
  { message := "Reached EOF while trying to parse " ++ rule, position := none }

/-- Failure outcome of an embedded parsing operation: `err` is an ordinary
`Err(ParseError)` return, `abort` models a Rust panic (todo!,
unreachable!) unwinding through every combinator, or fuel exhaustion. -/
inductive PFailure where
  | err (e : ParseError)
  | abort (msg : String)
deriving DecidableEq, Repr

/-- The `Id` AST node from src/src/parser/ast/expression/id.rs
(`pub struct Id(pub String)`). -/
structure Id where
  value : String
deriving DecidableEq, Repr

/-- The `Num` AST node (`pub struct Num(pub u64)`); its defining file
num.rs is absent from src, but the struct shape appears throughout the
combinators.rs tests. -/
structure Num where
  value : Nat
deriving DecidableEq, Repr

/-- The `Expression` enum from src/src/parser/ast/expression/mod.rs. -/
inductive Expression where
  | Id (i : Id)
  | Num (n : Num)
  | Addition (l r : Expression)
  | Multiplication (l r : Expression)
deriving DecidableEq, Repr

/-- The `AstNode` union, restricted to the variants the claims exercise
(its defining file parser/ast/mod.rs is absent from src; the Id, Num and
Expression variants appear in combinators.rs and expression/mod.rs). -/
inductive AstNode where
  | Id (i : Id)
  | Num (n : Num)
  | Expression (e : Expression)
deriving DecidableEq, Repr

/-- Embedding of `Id::parse` from src/src/parser/ast/expression/id.rs:
advance once; an `Id` token yields the node, any other token yields an
error carrying that token's position, EOF yields the positionless EOF
error.  The node is wrapped as `AstNode::Id` as the `Comb::ID` node rule
in combinators.rs requires. -/
def Id.parse (ts : Tokens) : Except PFailure AstNode × Tokens :=
  match ts.next with
  | (some (Token.Id value _), ts1) => (.ok (AstNode.Id { value := value }), ts1)
  | (some t, ts1) =>
    (.error (.err { message := "Tried to parse Id from non id token"
                    position := some t.position }), ts1)
  | (none, ts1) => (.error (.err (ParseError.eof "Id")), ts1)

/-- Modelled from the spec: num.rs defining `Num::parse` is absent from
src; per spec section 4.4 the IntegerLiteral rule consumes exactly one
integer-literal token with the same failure modes as the Identifier rule,
and the combinators.rs tests show it produces `AstNode::Num`. -/
def Num.parse (ts : Tokens) : Except PFailure AstNode × Tokens :=
  match ts.next with
  | (some (Token.Num value _), ts1) => (.ok (AstNode.Num { value := value }), ts1)
  | (some t, ts1) =>
    (.error (.err { message := "Tried to parse Num from non num token"
                    position := some t.position }), ts1)
  | (none, ts1) => (.error (.err (ParseError.eof "Num")), ts1)

/-- Node rules registered as `Comb` constants in combinators.rs that the
claims exercise: `Comb::ID`, `Comb::NUM` and `Comb::EXPR` (the statement
rules live in files absent from src). -/
inductive NodeRule where
  | id
  | num
  | expr
deriving DecidableEq, Repr

/-- The `Comb` combinator tree from src/src/parser/combinators.rs, with
the `Node` variant's function pointer replaced by the name of the
registered rule it points at. -/
inductive Comb where
  | Node (rule : NodeRule)
  | Terminal (token : Terminal)
  | Sequence (current next : Comb)
  | Either (left right : Comb)
  | Optional (inner : Comb)
deriving DecidableEq, Repr

mutual

/-- Embedding of `Comb::parse` from src/src/parser/combinators.rs, one
arm per combinator variant, with an explicit fuel parameter decremented
at every recursive call.  Building the result list mirrors the Rust
`matched` vector: terminals contribute nothing, node rules push one node,
sequence concatenates, either and optional pass through or restore. -/
def Comb.parse (c : Comb) (ts : Tokens) (fuel : Nat) :
    Except PFailure (List AstNode) × Tokens :=
  match fuel with
  | 0 => (.error (.abort "out of fuel"), ts)
  | n + 1 =>
    match c with
    | .Terminal token =>
      match ts.next with
      | (none, ts1) =>
        (.error (.err { message := "Reached EOF!", position := none }), ts1)
      | (some t, ts1) =>
        if token.matches t then (.ok [], ts1)
        else
          (.error (.err { message := "Unexpected " ++ t.describe ++
                            " while trying to parse " ++ token.describe
                          position := none }), ts1)
    | .Node .id =>
      match Id.parse ts with
      | (.ok node, ts1) => (.ok [node], ts1)
      | (.error f, ts1) => (.error f, ts1)
    | .Node .num =>
      match Num.parse ts with
      | (.ok node, ts1) => (.ok [node], ts1)
      | (.error f, ts1) => (.error f, ts1)
    | .Node .expr =>
      match Expression.parse ts n with
      | (.ok node, ts1) => (.ok [node], ts1)
      | (.error f, ts1) => (.error f, ts1)
    | .Sequence current next =>
      match Comb.parse current ts n with
      | (.error f, ts1) => (.error f, ts1)
      | (.ok current_matches, ts1) =>
        match Comb.parse next ts1 n with
        | (.error f, ts2) => (.error f, ts2)
        | (.ok next_matches, ts2) => (.ok (current_matches ++ next_matches), ts2)
    | .Either left right =>
      let current_index := ts.get_index
      match Comb.parse left ts n with
      | (.ok left_matches, ts1) => (.ok left_matches, ts1)
      | (.error (.abort s), ts1) => (.error (.abort s), ts1)
      | (.error (.err _), ts1) => Comb.parse right (ts1.set_index current_index) n
    | .Optional inner =>
      let current_index := ts.get_index
      match Comb.parse inner ts n with
      | (.ok result, ts1) => (.ok result, ts1)
      | (.error (.abort s), ts1) => (.error (.abort s), ts1)
      | (.error (.err _), ts1) => (.ok [], ts1.set_index current_index)

/-- Embedding of `Expression::parse` from
src/src/parser/ast/expression/mod.rs: parse the left operand through the
`NUM | ID` matcher, return it bare at EOF or before a semicolon, consume
a `Times` or `Plus` and recurse into the full expression rule for the
right-hand side, and hit the `todo!` panic on any other next token.  The
two `unreachable!` arms become aborts. -/
def Expression.parse (ts : Tokens) (fuel : Nat) :
    Except PFailure AstNode × Tokens :=
  match fuel with
  | 0 => (.error (.abort "out of fuel"), ts)
  | n + 1 =>
    match Comb.parse (Comb.Either (Comb.Node .num) (Comb.Node .id)) ts n with
    | (.error f, ts1) => (.error f, ts1)
    | (.ok result, ts1) =>
      let expr? : Option Expression :=
        match result.head? with
        | some (AstNode.Id i) => some (Expression.Id i)
        | some (AstNode.Num m) => some (Expression.Num m)
        | _ => none
      match expr? with
      | none => (.error (.abort "unreachable"), ts1)
      | some expr =>
        match ts1.peek with
        | none => (.ok (AstNode.Expression expr), ts1)
        | some (Token.Semicolon _) => (.ok (AstNode.Expression expr), ts1)
        | some (Token.Times _) =>
          Expression.parseRhs Expression.Multiplication expr (ts1.next).2 n
        | some (Token.Plus _) =>
          Expression.parseRhs Expression.Addition expr (ts1.next).2 n
        | some t => (.error (.abort ("todo: " ++ t.describe)), ts1)

/-- Tail of `Expression::parse`: run the full `Comb::EXPR` rule for the
right-hand side and wrap both operands with the stored constructor
(`tuple` in the Rust). -/
def Expression.parseRhs (tuple : Expression → Expression → Expression)
    (expr : Expression) (ts2 : Tokens) (fuel : Nat) :
    Except PFailure AstNode × Tokens :=
  match fuel with
  | 0 => (.error (.abort "out of fuel"), ts2)
  | n + 1 =>
    match Comb.parse (Comb.Node .expr) ts2 n with
    | (.error f, ts3) => (.error f, ts3)
    | (.ok result, ts3) =>
      match result.head? with
      | some (AstNode.Expression rhs) =>
        (.ok (AstNode.Expression (tuple expr rhs)), ts3)
      | _ => (.error (.abort "unreachable"), ts3)

end

/-- The `LexError` payload from src/src/lexer.rs
(`pub struct LexError(String)`). -/
structure LexError where
  message : String
deriving DecidableEq, Repr

/-- Embedding of `lex_comment` from src/src/lexer.rs: bump the column,
require two leading slashes, collect everything up to the next newline
(bumping the column per collected character) into a `Comment` token whose
text excludes the slashes. -/
def lex_comment (chars : List Char) (line col : Nat) :
    Except LexError (Token × List Char × Nat × Nat) :=
  let position := (line, col)
  let col := col + 1
  match chars with
  | '/' :: '/' :: rest =>
    let body := rest.takeWhile (fun c => c != '\n')
    let remaining := rest.dropWhile (fun c => c != '\n')
    .ok (Token.Comment (String.mk body) position, remaining, line, col + body.length)
  | _ => .error { message := "Comment without second slash!" }

/-- Embedding of `lex_alphabetic` from src/src/lexer.rs: collect the
alphabetic run (ASCII here; the claims only exercise ASCII input), bump
the column per character, and emit `Let` for the exact spelling "let",
otherwise an `Id`. -/
def lex_alphabetic (chars : List Char) (line col : Nat) :
    Token × List Char × Nat × Nat :=
  let position := (line, col)
  let read := chars.takeWhile Char.isAlpha
  let remaining := chars.dropWhile Char.isAlpha
  let col := col + read.length
  let s := String.mk read
  (if s = "let" then Token.Let position else Token.Id s position, remaining, line, col)

/-- Embedding of `lex_numeric` from src/src/lexer.rs: bump the column
once up front, collect the digit run (bumping per digit), and convert it
to a `Num` token, failing as `u64` parsing would on an empty run or a
value past the 64-bit bound. -/
def lex_numeric (chars : List Char) (line col : Nat) :
    Except LexError (Token × List Char × Nat × Nat) :=
  let position := (line, col)
  let col := col + 1
  let read := chars.takeWhile Char.isDigit
  let remaining := chars.dropWhile Char.isDigit
  let col := col + read.length
  let value := read.foldl (fun a c => a * 10 + (c.toNat - 48)) 0
  if read.isEmpty ∨ 2 ^ 64 ≤ value then
    .error { message := "failed to parse numeric" }
  else
    .ok (Token.Num value position, remaining, line, col)

/-- Lexer-loop state of `lex` from src/src/lexer.rs: the unconsumed
character iterator, the tracked line and column, and the tokens pushed so
far. -/
structure LexState where
  remaining : List Char
  line : Nat
  col : Nat
  tokens : List Token
deriving DecidableEq, Repr

/-- Outcome of one iteration of the `while let Some(next) = iterator.peek()`
loop of `lex`: the loop exits with the tokens, returns a lexical error, or
comes back around with an updated state. -/
inductive LexStep where
  | done (tokens : List Token)
  | failed (e : LexError)
  | again (s : LexState)
deriving DecidableEq, Repr

/-- Embedding of one iteration of the main loop of `lex` from
src/src/lexer.rs, arm for arm.  The `=`, `;`, space, newline and
catch-all arms only peek and never consume the character, exactly as the
Rust does; the comment, alphabetic and numeric arms consume through their
helper. -/
def lexStep (s : LexState) : LexStep :=
  match s.remaining with
  | [] => .done s.tokens
  | next :: _ =>
    if next = '=' then
      .again { s with tokens := s.tokens ++ [Token.Eq (s.line, s.col)] }
    else if next = ';' then
      .again { s with tokens := s.tokens ++ [Token.Semicolon (s.line, s.col)] }
    else if next = '/' then
      match lex_comment s.remaining s.line s.col with
      | .ok (t, remaining, line, col) =>
        .again { remaining := remaining, line := line, col := col
                 tokens := s.tokens ++ [t] }
      | .error e => .failed e
    else if next.isAlpha then
      match lex_alphabetic s.remaining s.line s.col with
      | (t, remaining, line, col) =>
        .again { remaining := remaining, line := line, col := col
                 tokens := s.tokens ++ [t] }
    else if next.isDigit then
      match lex_numeric s.remaining s.line s.col with
      | .ok (t, remaining, line, col) =>
        .again { remaining := remaining, line := line, col := col
                 tokens := s.tokens ++ [t] }
      | .error e => .failed e
    else if next = ' ' then
      .again { s with col := s.col + 1 }
    else if next = '\n' then
      .again { s with line := s.line + 1, col := 1 }
    else
      .again s

/-- Iterate `lexStep` at most `fuel` times; `none` means the loop was
still running after `fuel` iterations. -/
def lexRun : Nat → LexState → Option (Except LexError (List Token))
  | 0, _ => none
  | n + 1, s =>
    match lexStep s with
    | .done ts => some (.ok ts)
    | .failed e => some (.error e)
    | .again s2 => lexRun n s2

/-- Initial loop state of `lex` from src/src/lexer.rs: the whole input
pending, line 1, column 1, no tokens. -/
def lexInit (input : List Char) : LexState :=
  { remaining := input, line := 1, col := 1, tokens := [] }

/-- Embedding of `pub fn lex` from src/src/lexer.rs, with the iteration
bound made explicit: `some` is the value the Rust function returns within
that many loop iterations, `none` means it is still looping. -/
def lex (input : String) (fuel : Nat) : Option (Except LexError (List Token)) :=
  lexRun fuel (lexInit input.toList)

/-- Token kinds of the registered-pattern lexer in src/src/lexer/mod.rs,
as exercised by its tests (the defining file lexer/token.rs is absent
from src). -/
inductive LTokenKind where
  | Let
  | WhileKeyword
  | FnKeyword
  | Assign
  | Semicolon
  | Plus
  | Times
  | LParen
  | RParen
  | LBrace
  | RBrace
  | Id (value : String)
  | Integer (value : Nat)
  | Comment (value : String)
deriving DecidableEq, Repr

/-- Token of the registered-pattern lexer: a kind plus the flat byte
position handed to the pattern table by `Lexer::lex`. -/
structure LToken where
  kind : LTokenKind
  position : Nat
deriving DecidableEq, Repr

/-- Modelled from the spec: the fixed-spelling lexical patterns of the
Lexikon (lexer/lexmap.rs is absent from src); per spec section 4.1
keywords are registered before the general identifier pattern so that
registration order breaks equal-length ties in their favor. -/
def fixedPatterns : List (List Char × (Nat → LToken)) :=
  [("let".toList, fun p => { kind := .Let, position := p }),
   ("while".toList, fun p => { kind := .WhileKeyword, position := p }),
   ("fn".toList, fun p => { kind := .FnKeyword, position := p }),
   (['='], fun p => { kind := .Assign, position := p }),
   ([';'], fun p => { kind := .Semicolon, position := p }),
   (['+'], fun p => { kind := .Plus, position := p }),
   (['*'], fun p => { kind := .Times, position := p }),
   (['('], fun p => { kind := .LParen, position := p }),
   ([')'], fun p => { kind := .RParen, position := p }),
   (['\x7b'], fun p => { kind := .LBrace, position := p }),
   (['\x7d'], fun p => { kind := .RBrace, position := p })]

/-- Modelled from the spec: every pattern's match length and token at the
head of `input`, in registration order — fixed spellings, then comments,
then integer literals, then identifiers.  A zero length means the pattern
does not match here. -/
def patternMatches (input : List Char) (position : Nat) : List (Nat × LToken) :=
  (fixedPatterns.map fun pat =>
    (if pat.1.isPrefixOf input then pat.1.length else 0, pat.2 position)) ++
  [(match input with
    | '/' :: '/' :: rest => 2 + (rest.takeWhile (fun c => c != '\n')).length
    | _ => 0,
    { kind := .Comment (String.mk (match input with
        | '/' :: '/' :: rest => rest.takeWhile (fun c => c != '\n')
        | _ => []))
      position := position }),
   ((input.takeWhile Char.isDigit).length,
    { kind := .Integer ((input.takeWhile Char.isDigit).foldl
        (fun a c => a * 10 + (c.toNat - 48)) 0)
      position := position }),
   ((input.takeWhile Char.isAlpha).length,
    { kind := .Id (String.mk (input.takeWhile Char.isAlpha))
      position := position })]

/-- Modelled from the spec: `Lexikon::find_longest_match` selects among
all matching patterns the one consuming the most characters, ties broken
by registration order (first registered wins), and reports `none` when no
pattern matches (spec section 4.1). -/
def find_longest_match (input : List Char) (position : Nat) :
    Nat × Option LToken :=
  (patternMatches input position).foldl
    (fun best cand => if best.1 < cand.1 then (cand.1, some cand.2) else best)
    (0, none)

/-- Embedding of `Lexer::eat_whitespace` from src/src/lexer/mod.rs:
advance the cursor past ASCII whitespace. -/
def eat_whitespace (input : List Char) (position : Nat) : Nat :=
  position + ((input.drop position).takeWhile (fun c =>
    c == ' ' || c == '\t' || c == '\n' || c == '\r' || c == '\x0c')).length

/-- Outcome of `Lexer::lex` from src/src/lexer/mod.rs: a token sequence,
the fatal unlexable-input panic, or fuel exhaustion (a model artifact). -/
inductive LexV2Result where
  | ok (tokens : List LToken)
  | fatal (message : String)
  | fuelOut
deriving DecidableEq, Repr

/-- Embedding of the loop of `Lexer::lex` from src/src/lexer/mod.rs:
while the cursor has not reached the end, eat whitespace, take the
longest pattern match at the cursor, push its token and advance by the
match length; an unmatched non-empty remainder is the fatal panic. -/
def Lexer.lexLoop : Nat → List Char → Nat → List LToken → LexV2Result
  | 0, _, _, _ => .fuelOut
  | n + 1, input, position, acc =>
    if position = input.length then .ok acc
    else
      let position := eat_whitespace input position
      let res := find_longest_match (input.drop position) position
      match res.2 with
      | some t => Lexer.lexLoop n input (position + res.1) (acc ++ [t])
      | none =>
        if position = input.length then .ok acc else .fatal "Failed to lex"

/-- Embedding of `Lexer::lex` from src/src/lexer/mod.rs on a fresh
`Lexer::new` state, with fuel one more than the input length (the loop
advances the cursor by at least one per emitted token). -/
def Lexer.lex (input : String) : LexV2Result :=
  Lexer.lexLoop (input.length + 1) input.toList 0 []

theorem Tokens.next_tokens (ts : Tokens) : (ts.next).2.tokens = ts.tokens := by
  unfold Tokens.next
  cases ts.tokens.get? ts.index <;> rfl

theorem Tokens.set_index_tokens (ts : Tokens) (i : Nat) :
    (ts.set_index i).tokens = ts.tokens := rfl

theorem Tokens.restore_eq (ts ts1 : Tokens) (h : ts1.tokens = ts.tokens) :
    ts1.set_index ts.index = ts := by
  cases ts; cases ts1
  simp only [Tokens.set_index]
  simp_all

theorem id_parse_preserves_tokens (ts : Tokens) : (Id.parse ts).2.tokens = ts.tokens := by
  unfold Id.parse
  have h := Tokens.next_tokens ts
  rcases hn : ts.next with ⟨o, ts1⟩
  rw [hn] at h
  cases o with
  | none => simpa using h
  | some t => cases t <;> simpa using h

theorem num_parse_preserves_tokens (ts : Tokens) : (Num.parse ts).2.tokens = ts.tokens := by
  unfold Num.parse
  have h := Tokens.next_tokens ts
  rcases hn : ts.next with ⟨o, ts1⟩
  rw [hn] at h
  cases o with
  | none => simpa using h
  | some t => cases t <;> simpa using h

/-- No parsing operation ever touches the owned token sequence of the
stream: only the cursor moves (spec section 3, "owns the full token
sequence (produced once, never mutated)").  Proved for all three mutually
recursive parse functions at once by induction on fuel. -/
theorem parse_tokens_eq (n : Nat) :
    (∀ c ts, ((Comb.parse c ts n).2).tokens = ts.tokens) ∧
    (∀ ts, ((Expression.parse ts n).2).tokens = ts.tokens) ∧
    (∀ f e ts, ((Expression.parseRhs f e ts n).2).tokens = ts.tokens) := by
  induction n with
  | zero => exact ⟨fun c ts => rfl, fun ts => rfl, fun f e ts => rfl⟩
  | succ n ih =>
    obtain ⟨ihc, ihe, ihr⟩ := ih
    have hc : ∀ c ts, ((Comb.parse c ts (n + 1)).2).tokens = ts.tokens := by
      intro c ts
      cases c with
      | Terminal token =>
        simp only [Comb.parse]
        have h := Tokens.next_tokens ts
        rcases hn : ts.next with ⟨o, ts1⟩
        rw [hn] at h
        cases o with
        | none => simpa using h
        | some t =>
          by_cases hm : token.matches t = true <;> simp [hm] <;> exact h
      | Node rule =>
        cases rule with
        | id =>
          simp only [Comb.parse]
          have h := id_parse_preserves_tokens ts
          rcases hp : Id.parse ts with ⟨r, ts1⟩
          rw [hp] at h
          cases r <;> simpa using h
        | num =>
          simp only [Comb.parse]
          have h := num_parse_preserves_tokens ts
          rcases hp : Num.parse ts with ⟨r, ts1⟩
          rw [hp] at h
          cases r <;> simpa using h
        | expr =>
          simp only [Comb.parse]
          have h := ihe ts
          rcases hp : Expression.parse ts n with ⟨r, ts1⟩
          rw [hp] at h
          cases r <;> simpa using h
      | Sequence current next =>
        simp only [Comb.parse]
        have h1 := ihc current ts
        rcases hp : Comb.parse current ts n with ⟨r1, ts1⟩
        rw [hp] at h1
        have h2 := ihc next ts1
        rcases hq : Comb.parse next ts1 n with ⟨r2, ts2⟩
        rw [hq] at h2
        cases r1 with
        | error f => simpa using h1
        | ok m1 =>
          simp only [hq]
          cases r2 <;> simpa using h2.trans h1
      | Either left right =>
        simp only [Comb.parse]
        have h1 := ihc left ts
        rcases hp : Comb.parse left ts n with ⟨r1, ts1⟩
        rw [hp] at h1
        cases r1 with
        | ok m1 => simpa using h1
        | error f =>
          cases f with
          | abort s => simpa using h1
          | err e =>
            have h2 := ihc right (ts1.set_index ts.get_index)
            simp only [Tokens.set_index_tokens] at h2
            simpa using h2.trans h1
      | Optional inner =>
        simp only [Comb.parse]
        have h1 := ihc inner ts
        rcases hp : Comb.parse inner ts n with ⟨r1, ts1⟩
        rw [hp] at h1
        cases r1 with
        | ok m1 => simpa using h1
        | error f =>
          cases f with
          | abort s => simpa using h1
          | err e => simpa [Tokens.set_index_tokens] using h1
    refine ⟨hc, ?_, ?_⟩
    · intro ts
      simp only [Expression.parse]
      have h1 := ihc (Comb.Either (Comb.Node .num) (Comb.Node .id)) ts
      rcases hp : Comb.parse (Comb.Either (Comb.Node .num) (Comb.Node .id)) ts n with ⟨r1, ts1⟩
      rw [hp] at h1
      cases r1 with
      | error f => simpa using h1
      | ok result =>
        cases hh : result.head? with
        | none => simp [hh]; exact h1
        | some node =>
          cases node with
          | Expression e => simp [hh]; exact h1
          | Id i =>
            cases hq : ts1.peek with
            | none => simp [hh, hq]; exact h1
            | some t =>
              cases t <;> simp [hh, hq] <;>
                first
                  | exact h1
                  | exact ((ihr _ _ _).trans (Tokens.next_tokens ts1)).trans h1
          | Num m =>
            cases hq : ts1.peek with
            | none => simp [hh, hq]; exact h1
            | some t =>
              cases t <;> simp [hh, hq] <;>
                first
                  | exact h1
                  | exact ((ihr _ _ _).trans (Tokens.next_tokens ts1)).trans h1
    · intro f e ts
      simp only [Expression.parseRhs]
      have h1 := ihc (Comb.Node .expr) ts
      rcases hp : Comb.parse (Comb.Node .expr) ts n with ⟨r1, ts1⟩
      rw [hp] at h1
      cases r1 with
      | error g => simpa using h1
      | ok result =>
        cases hh : result.head? with
        | none => simp [hh]; exact h1
        | some node => cases node <;> simp [hh] <;> exact h1

/-- C1: for every combinator pair (left, right) and every token stream,
when `Either(left, right).parse` is run and left fails (returns an
ordinary parse error), the stream index is first restored to its value
from immediately before left ran, right is run from exactly that
position, and right's whole result — nodes or error, and final stream —
is returned unchanged; when left succeeds, Either returns left's nodes
and stream. -/
theorem either_backtracks (left right : Comb) (ts : Tokens) (n : Nat) :
    (∀ m ts1, Comb.parse left ts n = (.ok m, ts1) →
      Comb.parse (Comb.Either left right) ts (n + 1) = (.ok m, ts1)) ∧
    (∀ e ts1, Comb.parse left ts n = (.error (.err e), ts1) →
      Comb.parse (Comb.Either left right) ts (n + 1) = Comb.parse right ts n) := by
  constructor
  · intro m ts1 h
    simp only [Comb.parse, h]
  · intro e ts1 h
    have hp := (parse_tokens_eq n).1 left ts
    rw [h] at hp
    simp only [Comb.parse, h, Tokens.get_index]
    rw [Tokens.restore_eq ts ts1 hp]

/-- Witness for C1 at a concrete input: on the one-token stream `[Eq]`,
the left branch `Terminal(Let)` fails after consuming the token, and the
Either run equals running `Terminal(Eq)` from the original position,
which succeeds. -/
theorem either_backtracks_witness :
    Comb.parse (Comb.Either (Comb.Terminal .Let) (Comb.Terminal .Eq))
        ⟨[Token.Eq (0, 0)], 0⟩ 2 = (.ok [], ⟨[Token.Eq (0, 0)], 1⟩) := by
  have h := (either_backtracks (Comb.Terminal .Let) (Comb.Terminal .Eq)
      ⟨[Token.Eq (0, 0)], 0⟩ 1).2
    { message := "Unexpected Eq while trying to parse Let", position := none }
    ⟨[Token.Eq (0, 0)], 1⟩ rfl
  exact h.trans rfl

/-- C2: for every combinator and stream (and positive fuel),
`Optional(inner).parse` never returns an error value; when inner fails
with an ordinary parse error it returns a successful empty node sequence
on the stream restored to the index from immediately before the call, and
when inner succeeds it returns inner's nodes on inner's final stream. -/
theorem optional_never_fails (inner : Comb) (ts : Tokens) (n : Nat) :
    (∀ e, (Comb.parse (Comb.Optional inner) ts (n + 1)).1 ≠ .error (.err e)) ∧
    (∀ e ts1, Comb.parse inner ts n = (.error (.err e), ts1) →
      Comb.parse (Comb.Optional inner) ts (n + 1) = (.ok [], ts)) ∧
    (∀ m ts1, Comb.parse inner ts n = (.ok m, ts1) →
      Comb.parse (Comb.Optional inner) ts (n + 1) = (.ok m, ts1)) := by
  refine ⟨?_, ?_, ?_⟩
  · intro e
    simp only [Comb.parse]
    rcases hp : Comb.parse inner ts n with ⟨r1, ts1⟩
    cases r1 with
    | ok m => simp
    | error f => cases f <;> simp
  · intro e ts1 h
    have hp := (parse_tokens_eq n).1 inner ts
    rw [h] at hp
    simp only [Comb.parse, h, Tokens.get_index]
    rw [Tokens.restore_eq ts ts1 hp]
  · intro m ts1 h
    simp only [Comb.parse, h]

/-- Witness for C2 at a concrete input, mirroring the combinators.rs test
of an optional non-matching terminal: the wrapped `Terminal(Let)` fails
on the stream `[Eq]`, and the Optional run succeeds with no nodes and the
index back at 0. -/
theorem optional_never_fails_witness :
    Comb.parse (Comb.Optional (Comb.Terminal .Let)) ⟨[Token.Eq (0, 0)], 0⟩ 2
      = (.ok [], ⟨[Token.Eq (0, 0)], 0⟩) :=
  (optional_never_fails (Comb.Terminal .Let) ⟨[Token.Eq (0, 0)], 0⟩ 1).2.1
    { message := "Unexpected Eq while trying to parse Let", position := none }
    ⟨[Token.Eq (0, 0)], 1⟩ rfl

/-- C3: for every combinator pair (a, b) and stream, `Sequence(a, b)`
runs a then b in order: on double success it returns a's nodes followed
by b's nodes on b's final stream; when a fails, a's failure and stream
are returned as they are (the result does not involve b at all); when a
succeeds and b fails, b's failure is propagated verbatim with the stream
exactly where the failing child left it — never restored to the pre-a
position. -/
theorem sequence_propagates (a b : Comb) (ts : Tokens) (n : Nat) :
    (∀ f ts1, Comb.parse a ts n = (.error f, ts1) →
      Comb.parse (Comb.Sequence a b) ts (n + 1) = (.error f, ts1)) ∧
    (∀ ma ts1 mb ts2, Comb.parse a ts n = (.ok ma, ts1) →
      Comb.parse b ts1 n = (.ok mb, ts2) →
      Comb.parse (Comb.Sequence a b) ts (n + 1) = (.ok (ma ++ mb), ts2)) ∧
    (∀ ma ts1 f ts2, Comb.parse a ts n = (.ok ma, ts1) →
      Comb.parse b ts1 n = (.error f, ts2) →
      Comb.parse (Comb.Sequence a b) ts (n + 1) = (.error f, ts2)) := by
  refine ⟨?_, ?_, ?_⟩
  · intro f ts1 h
    simp only [Comb.parse, h]
  · intro ma ts1 mb ts2 h1 h2
    simp only [Comb.parse, h1, h2]
  · intro ma ts1 f ts2 h1 h2
    simp only [Comb.parse, h1, h2]

/-- Witness for C3 at a concrete input: on `[Let, Semicolon]`, of
`Sequence(Terminal(Let), Terminal(Eq))` the first child succeeds and the
second fails on the semicolon; the sequence returns that error with the
stream at index 2, not restored to 0. -/
theorem sequence_propagates_witness :
    Comb.parse (Comb.Sequence (Comb.Terminal .Let) (Comb.Terminal .Eq))
        ⟨[Token.Let (0, 0), Token.Semicolon (0, 1)], 0⟩ 2 =
      (.error (.err { message := "Unexpected Semicolon while trying to parse Eq"
                      position := none }),
       ⟨[Token.Let (0, 0), Token.Semicolon (0, 1)], 2⟩) :=
  (sequence_propagates (Comb.Terminal .Let) (Comb.Terminal .Eq)
      ⟨[Token.Let (0, 0), Token.Semicolon (0, 1)], 0⟩ 1).2.2
    [] ⟨[Token.Let (0, 0), Token.Semicolon (0, 1)], 1⟩
    (.err { message := "Unexpected Semicolon while trying to parse Eq"
            position := none })
    ⟨[Token.Let (0, 0), Token.Semicolon (0, 1)], 2⟩ rfl rfl

/-- C9: for every expected terminal kind and every stream whose current
token does not match it, `Terminal(kind).parse` fails, and the stream is
left advanced one past the mismatched token: the token is consumed by
`next` before the mismatch is detected. -/
theorem terminal_mismatch_consumes (k : Terminal) (ts : Tokens) (t : Token)
    (n : Nat) (h1 : ts.peek = some t) (h2 : k.matches t = false) :
    Comb.parse (Comb.Terminal k) ts (n + 1) =
      (.error (.err { message := "Unexpected " ++ t.describe ++
                        " while trying to parse " ++ k.describe
                      position := none }),
       { ts with index := ts.index + 1 }) := by
  simp only [Comb.parse, Tokens.next]
  rw [show ts.tokens.get? ts.index = some t from h1]
  simp [h2]

/-- Witness for C9 at a concrete input, mirroring the combinators.rs test
`test_parse_simple_error`: `Terminal(Let)` on the one-token stream
`[Num 42]` fails and leaves the index at 1. -/
theorem terminal_mismatch_consumes_witness :
    Comb.parse (Comb.Terminal .Let) ⟨[Token.Num 42 (0, 0)], 0⟩ 1 =
      (.error (.err { message := "Unexpected Num while trying to parse Let"
                      position := none }),
       ⟨[Token.Num 42 (0, 0)], 1⟩) :=
  terminal_mismatch_consumes .Let ⟨[Token.Num 42 (0, 0)], 0⟩
    (Token.Num 42 (0, 0)) 0 rfl rfl

theorem matcher_parse_num (ts : Tokens) (v : Nat) (p : Position)
    (h : ts.tokens.get? ts.index = some (Token.Num v p)) (n : Nat) :
    Comb.parse (Comb.Either (Comb.Node .num) (Comb.Node .id)) ts (n + 2) =
      (.ok [AstNode.Num { value := v }], { ts with index := ts.index + 1 }) := by
  show Comb.parse (Comb.Either (Comb.Node .num) (Comb.Node .id)) ts (n + 1 + 1) = _
  simp only [Comb.parse, Num.parse, Tokens.next, h]

theorem matcher_parse_id (ts : Tokens) (v : String) (p : Position)
    (h : ts.tokens.get? ts.index = some (Token.Id v p)) (n : Nat) :
    Comb.parse (Comb.Either (Comb.Node .num) (Comb.Node .id)) ts (n + 2) =
      (.ok [AstNode.Id { value := v }], { ts with index := ts.index + 1 }) := by
  show Comb.parse (Comb.Either (Comb.Node .num) (Comb.Node .id)) ts (n + 1 + 1) = _
  simp only [Comb.parse, Num.parse, Id.parse, Tokens.next, Tokens.set_index,
    Tokens.get_index, h]

/-- C5 counterexample: `Terminal(Eq)` on the one-token stream whose
current token is `Let` at position (1, 1) fails with a token present at
the point of failure, yet the returned ParseError carries no position —
refuting the claim that every such error carries the offending token's
position. -/
theorem error_position_counterexample :
    (Tokens.mk [Token.Let (1, 1)] 0).peek = some (Token.Let (1, 1)) ∧
    (Comb.parse (Comb.Terminal .Eq) ⟨[Token.Let (1, 1)], 0⟩ 1).1 =
      .error (.err { message := "Unexpected Let while trying to parse Eq"
                     position := none }) :=
  ⟨rfl, rfl⟩

/-- C5 as amended: a Node rule given a wrong-kind token (here `Id::parse`)
returns an error carrying that token's position, but a Terminal error
always has position `None` — on a kind mismatch with the offending token
present just as at EOF. -/
theorem error_positions (ts : Tokens) (n : Nat) :
    (∀ t, ts.peek = some t → (∀ v p, t ≠ Token.Id v p) →
      (Id.parse ts).1 =
        .error (.err { message := "Tried to parse Id from non id token"
                       position := some t.position })) ∧
    (∀ k e, (Comb.parse (Comb.Terminal k) ts (n + 1)).1 = .error (.err e) →
      e.position = none) := by
  constructor
  · intro t hpeek hne
    unfold Id.parse Tokens.next
    rw [show ts.tokens.get? ts.index = some t from hpeek]
    cases t with
    | Id v p => exact absurd rfl (hne v p)
    | Eq p => rfl
    | Let p => rfl
    | Num v p => rfl
    | Semicolon p => rfl
    | Comment v p => rfl
    | Times p => rfl
    | Plus p => rfl
  · intro k e
    simp only [Comb.parse, Tokens.next]
    rcases hg : ts.tokens.get? ts.index with _ | t
    · intro h
      simp only [Except.error.injEq, PFailure.err.injEq] at h
      rw [← h]
    · dsimp only
      by_cases hm : k.matches t = true
      · simp [hm]
      · rw [if_neg hm]
        intro h
        simp only [Except.error.injEq, PFailure.err.injEq] at h
        rw [← h]

/-- Witness for the amended C5 at a concrete input, mirroring the id.rs
test of parsing an Id from a Num token: the error carries the token's
position (0, 0). -/
theorem error_positions_witness :
    (Id.parse ⟨[Token.Num 3 (0, 0)], 0⟩).1 =
      .error (.err { message := "Tried to parse Id from non id token"
                     position := some (0, 0) }) :=
  (error_positions ⟨[Token.Num 3 (0, 0)], 0⟩ 0).1 (Token.Num 3 (0, 0)) rfl
    (fun v p h => Token.noConfusion h)

/-- C4 counterexample: on the stream `[Num 1, Eq]` the left operand
parses and the next token is neither a semicolon, `+`, `*` nor end of
stream, and `Expression::parse` hits the `todo!` panic (the abort
outcome) instead of returning a ParseError value — refuting the claim
that it returns a structured error and never panics. -/
theorem expression_todo_counterexample :
    Expression.parse ⟨[Token.Num 1 (1, 1), Token.Eq (1, 2)], 0⟩ 5 =
      (.error (.abort "todo: Eq"), ⟨[Token.Num 1 (1, 1), Token.Eq (1, 2)], 1⟩) :=
  rfl

/-- C4 as amended: whenever the left operand (an integer literal or
identifier) parses and the next token is none of semicolon, `+`, `*` or
end of stream, `Expression::parse` aborts with the `todo!` panic naming
that token, leaving the stream just past the operand; it does not return
a ParseError. -/
theorem expression_todo_aborts (ts : Tokens) (n : Nat) (t u : Token)
    (hcur : ts.peek = some t)
    (hop : (∃ v p, t = Token.Num v p) ∨ (∃ v p, t = Token.Id v p))
    (hnext : ts.tokens.get? (ts.index + 1) = some u)
    (hsemi : ∀ p, u ≠ Token.Semicolon p)
    (htimes : ∀ p, u ≠ Token.Times p)
    (hplus : ∀ p, u ≠ Token.Plus p) :
    Expression.parse ts (n + 3) =
      (.error (.abort ("todo: " ++ u.describe)),
       { ts with index := ts.index + 1 }) := by
  show Expression.parse ts (n + 2 + 1) = _
  rcases hop with ⟨v, p, rfl⟩ | ⟨v, p, rfl⟩
  · simp only [Expression.parse, matcher_parse_num ts v p hcur n]
    cases u with
    | Semicolon pp => exact absurd rfl (hsemi pp)
    | Times pp => exact absurd rfl (htimes pp)
    | Plus pp => exact absurd rfl (hplus pp)
    | Eq pp => simp only [Tokens.peek, hnext]; rfl
    | Let pp => simp only [Tokens.peek, hnext]; rfl
    | Id vv pp => simp only [Tokens.peek, hnext]; rfl
    | Num vv pp => simp only [Tokens.peek, hnext]; rfl
    | Comment vv pp => simp only [Tokens.peek, hnext]; rfl
  · simp only [Expression.parse, matcher_parse_id ts v p hcur n]
    cases u with
    | Semicolon pp => exact absurd rfl (hsemi pp)
    | Times pp => exact absurd rfl (htimes pp)
    | Plus pp => exact absurd rfl (hplus pp)
    | Eq pp => simp only [Tokens.peek, hnext]; rfl
    | Let pp => simp only [Tokens.peek, hnext]; rfl
    | Id vv pp => simp only [Tokens.peek, hnext]; rfl
    | Num vv pp => simp only [Tokens.peek, hnext]; rfl
    | Comment vv pp => simp only [Tokens.peek, hnext]; rfl

/-- Witness for the amended C4 at a concrete input: on `[Num 7, Let]` the
parse aborts with the todo panic naming the `Let` token. -/
theorem expression_todo_aborts_witness :
    Expression.parse ⟨[Token.Num 7 (1, 1), Token.Let (1, 2)], 0⟩ 3 =
      (.error (.abort "todo: Let"),
       ⟨[Token.Num 7 (1, 1), Token.Let (1, 2)], 1⟩) :=
  expression_todo_aborts ⟨[Token.Num 7 (1, 1), Token.Let (1, 2)], 0⟩ 0
    (Token.Num 7 (1, 1)) (Token.Let (1, 2)) rfl (Or.inl ⟨7, (1, 1), rfl⟩) rfl
    (fun p h => Token.noConfusion h) (fun p h => Token.noConfusion h)
    (fun p h => Token.noConfusion h)

/-- C10: whenever the left operand (an integer literal or identifier)
parses successfully and the stream is then exhausted, `Expression::parse`
succeeds with the bare operand as the expression, the stream left just
past the operand — end of stream acts like a terminator. -/
theorem expression_bare_operand_at_eof (ts : Tokens) (n : Nat) :
    (∀ v p, ts.peek = some (Token.Num v p) →
      ts.tokens.get? (ts.index + 1) = none →
      Expression.parse ts (n + 3) =
        (.ok (AstNode.Expression (Expression.Num { value := v })),
         { ts with index := ts.index + 1 })) ∧
    (∀ v p, ts.peek = some (Token.Id v p) →
      ts.tokens.get? (ts.index + 1) = none →
      Expression.parse ts (n + 3) =
        (.ok (AstNode.Expression (Expression.Id { value := v })),
         { ts with index := ts.index + 1 })) := by
  constructor
  · intro v p hcur hend
    show Expression.parse ts (n + 2 + 1) = _
    simp only [Expression.parse, matcher_parse_num ts v p hcur n]
    simp only [Tokens.peek, hend]; rfl
  · intro v p hcur hend
    show Expression.parse ts (n + 2 + 1) = _
    simp only [Expression.parse, matcher_parse_id ts v p hcur n]
    simp only [Tokens.peek, hend]; rfl

/-- Witness for C10 at a concrete input, mirroring the expression test of
parsing a lone `Num 42`: the bare numeric expression is returned. -/
theorem expression_bare_operand_at_eof_witness :
    Expression.parse ⟨[Token.Num 42 (0, 0)], 0⟩ 3 =
      (.ok (AstNode.Expression (Expression.Num { value := 42 })),
       ⟨[Token.Num 42 (0, 0)], 1⟩) :=
  (expression_bare_operand_at_eof ⟨[Token.Num 42 (0, 0)], 0⟩ 0).1 42 (0, 0)
    rfl rfl

/-- C8: expression parsing is right-associative with `+` and `*` at equal
precedence: the token sequence for 1+2+3 parses to
Addition(1, Addition(2, 3)), and the one for 1*2+3 parses to
Multiplication(1, Addition(2, 3)) — the right-hand side of an operator is
a full recursively parsed expression. -/
theorem expression_right_assoc :
    Expression.parse ⟨[Token.Num 1 (1, 1), Token.Plus (1, 2), Token.Num 2 (1, 3),
                       Token.Plus (1, 4), Token.Num 3 (1, 5)], 0⟩ 20 =
      (.ok (AstNode.Expression (Expression.Addition (Expression.Num { value := 1 })
          (Expression.Addition (Expression.Num { value := 2 })
            (Expression.Num { value := 3 })))),
       ⟨[Token.Num 1 (1, 1), Token.Plus (1, 2), Token.Num 2 (1, 3),
         Token.Plus (1, 4), Token.Num 3 (1, 5)], 5⟩) ∧
    Expression.parse ⟨[Token.Num 1 (1, 1), Token.Times (1, 2), Token.Num 2 (1, 3),
                       Token.Plus (1, 4), Token.Num 3 (1, 5)], 0⟩ 20 =
      (.ok (AstNode.Expression (Expression.Multiplication (Expression.Num { value := 1 })
          (Expression.Addition (Expression.Num { value := 2 })
            (Expression.Num { value := 3 })))),
       ⟨[Token.Num 1 (1, 1), Token.Times (1, 2), Token.Num 2 (1, 3),
         Token.Plus (1, 4), Token.Num 3 (1, 5)], 5⟩) :=
  ⟨rfl, rfl⟩

theorem lexRun_stuck_on_eq :
    ∀ (fuel : Nat) (s : LexState), s.remaining = ['='] → lexRun fuel s = none := by
  intro fuel
  induction fuel with
  | zero => intro s h; rfl
  | succ n ih =>
    intro s h
    have hstep : lexStep s =
        .again { s with tokens := s.tokens ++ [Token.Eq (s.line, s.col)] } := by
      simp [lexStep, h]
    simp only [lexRun, hstep]
    exact ih _ h

/-- C6 fails on the code: the main loop of `lex` in src/src/lexer.rs only
peeks at `=` (and at `;`, whitespace and unhandled characters) without
ever consuming it, so on the input "=" the loop repeats forever pushing
`Eq` tokens — no number of iterations makes `lex` return, refuting
termination on every finite input. -/
theorem lex_no_progress_on_eq : ∀ fuel, lex "=" fuel = none := by
  intro fuel
  exact lexRun_stuck_on_eq fuel (lexInit "=".toList) rfl

/-- C7: the registered-pattern lexer of src/src/lexer/mod.rs tokenizes
"let foo = 42;" into exactly Let, Id "foo", Assign, Integer 42, Semicolon
in that order, and at position 0 the keyword pattern wins the
length-3 tie against the identifier pattern (whose alphabetic run "let"
is also length 3), matching the lexer's own `test_lex_let` test. -/
theorem lexer_lex_let_foo_42 :
    Lexer.lex "let foo = 42;" =
      .ok [{ kind := .Let, position := 0 }, { kind := .Id "foo", position := 4 },
           { kind := .Assign, position := 8 }, { kind := .Integer 42, position := 10 },
           { kind := .Semicolon, position := 12 }] ∧
    find_longest_match ("let foo = 42;".toList) 0 =
      (3, some { kind := .Let, position := 0 }) ∧
    ("let foo = 42;".toList.takeWhile Char.isAlpha).length = 3 :=
  ⟨rfl, rfl, rfl⟩

end Pesca
